import Mathlib

/-!
Shallow embedding of the research pipeline in `research_agent.py`
(class `ResearchAgent`).

Python strings are modelled as `List Char`; Python lists as Lean lists.
External effects (the DuckDuckGo search, the HTTP fetch + HTML parsing,
the OpenAI call) are passed in as explicit oracle parameters; everything
downstream of those effects is translated from the source line by line.

Python's `list(set(xs))` (used in `_keyword_analysis` to deduplicate) has
an unspecified element order.  It is modelled by an arbitrary function
`f : List Chars → List Chars` constrained, where a theorem needs it, by
`IsPySetList f` (duplicate-free, same membership); `List.dedup` is one
admissible instantiation used for concrete evaluations, chosen only at
inputs where every admissible order yields the same list.
-/

set_option maxRecDepth 8000

abbrev Chars := List Char

/-- Python whitespace (the ASCII characters matched by `str.strip()` and
by the regex class used in `_extract_content`). -/
def pyIsSpace (c : Char) : Bool :=
  c = ' ' || c = '\t' || c = '\n' || c = '\r' || c = '\x0b' || c = '\x0c'

/-- Python `str.strip()`: drop whitespace from both ends. -/
def pyStrip (s : Chars) : Chars :=
  ((s.dropWhile pyIsSpace).reverse.dropWhile pyIsSpace).reverse

/-- Python `str.lower()` (ASCII case folding). -/
def pyLower (s : Chars) : Chars := s.map Char.toLower

/-- Python `topic.replace(' ', '_')` from `_get_mock_sources`. -/
def pyReplaceSpaceUnderscore (s : Chars) : Chars :=
  s.map (fun c => if c = ' ' then '_' else c)

/-- Python `str.split(sep)` for a one-character separator, as in
`content.split('.')` (line 253).  `"".split('.') = [""]`,
`"a.".split('.') = ["a", ""]`. -/
def pySplitOn (sep : Char) : Chars → List Chars
  | [] => [[]]
  | c :: rest =>
    if c = sep then [] :: pySplitOn sep rest
    else
      match pySplitOn sep rest with
      | [] => [[c]]
      | h :: t => (c :: h) :: t

/-- Python `line.split("  ")` (two-space separator) from line 215 of
`_extract_content`. -/
def pySplitTwoSpaces : Chars → List Chars
  | [] => [[]]
  | ' ' :: ' ' :: rest => [] :: pySplitTwoSpaces rest
  | c :: rest =>
    match pySplitTwoSpaces rest with
    | [] => [[c]]
    | h :: t => (c :: h) :: t

/-- Python `str.splitlines()` (no trailing empty line; `\r\n` is one
break; covers the ASCII line boundaries). -/
def pySplitlinesAux (acc : Chars) : Chars → List Chars
  | [] => if acc.isEmpty then [] else [acc.reverse]
  | '\r' :: '\n' :: rest => acc.reverse :: pySplitlinesAux [] rest
  | '\r' :: rest => acc.reverse :: pySplitlinesAux [] rest
  | '\n' :: rest => acc.reverse :: pySplitlinesAux [] rest
  | '\x0b' :: rest => acc.reverse :: pySplitlinesAux [] rest
  | '\x0c' :: rest => acc.reverse :: pySplitlinesAux [] rest
  | c :: rest => pySplitlinesAux (c :: acc) rest

def pySplitlines (s : Chars) : List Chars := pySplitlinesAux [] s

/-- Python `re.sub(r'\s+', ' ', text)`: every maximal run of whitespace
becomes a single space.  The boolean argument records whether the
previous character was whitespace. -/
def collapseWsAux : Bool → Chars → Chars
  | _, [] => []
  | prevWs, c :: rest =>
    if pyIsSpace c then
      if prevWs then collapseWsAux true rest
      else ' ' :: collapseWsAux true rest
    else c :: collapseWsAux false rest

def collapseWs (s : Chars) : Chars := collapseWsAux false s

/-- Lines 213-219 of `_extract_content`: strip the lines produced by
`splitlines`, split each on double spaces, strip, drop empty chunks,
join with single spaces, then collapse remaining whitespace runs. -/
def normalizeExtractedText (text : Chars) : Chars :=
  let lines := (pySplitlines text).map pyStrip
  let chunks := lines.flatMap (fun line => (pySplitTwoSpaces line).map pyStrip)
  let joined := List.intercalate [' '] (chunks.filter (fun c => !c.isEmpty))
  collapseWs joined

/-- Line 221 of `_extract_content`:
`return text[:2500].strip() if text else None`, applied to the
normalized text.  The HTTP fetch / HTML parsing / tag removal that
produce the raw `get_text()` output are an oracle of the embedding; this
function is the pure tail of `_extract_content`. -/
def extract_content_clean (text : Chars) : Option Chars :=
  let t := normalizeExtractedText text
  if t.isEmpty then none else some (pyStrip (t.take 2500))

/-- Python's substring operator `needle in hay` on strings. -/
def pyContains (needle hay : Chars) : Bool := decide (needle <:+: hay)

/-- The allow-list of `_is_reliable_source` (lines 170-176). -/
def reliable_domains : List Chars :=
  (["wikipedia.org", "arxiv.org", "nature.com", "science.org",
    "technologyreview.com", "ieee.org", "acm.org", "nist.gov",
    "mit.edu", "stanford.edu", "researchgate.net", "springer.com",
    "sciencedirect.com", "towardsdatascience.com", "techcrunch.com",
    "medium.com", "github.com", "stackoverflow.com"]).map String.toList

/-- `_is_reliable_source` (line 177):
`any(domain in url.lower() for domain in reliable_domains)` — a substring
test against the whole lowercased URL, not only its host. -/
def is_reliable_source (url : Chars) : Bool :=
  reliable_domains.any (fun d => pyContains d (pyLower url))

/-- `_get_mock_sources` (lines 283-289). -/
def get_mock_sources (topic : Chars) : List Chars :=
  ["https://en.wikipedia.org/wiki/".toList ++ pyReplaceSpaceUnderscore topic,
   "https://arxiv.org/list/cs/recent".toList,
   "https://www.technologyreview.com/".toList]

/-- The result loop of `_search_web` (lines 150-156): accept reliable
URLs in order; after an append, break once `len(sources) >= num_sources`. -/
def searchLoop (num_sources : Nat) (acc : List Chars) : List Chars → List Chars
  | [] => acc
  | r :: rest =>
    if is_reliable_source r then
      if num_sources ≤ acc.length + 1 then acc ++ [r]
      else searchLoop num_sources (acc ++ [r]) rest
    else searchLoop num_sources acc rest

/-- `_search_web` (lines 136-162).  The DuckDuckGo call is an oracle:
`none` models a raised provider error (the `except` branch), `some rs`
models the returned result URLs in order. -/
def search_web (searchOutcome : Option (List Chars)) (topic : Chars)
    (num_sources : Nat) : List Chars :=
  match searchOutcome with
  | none => get_mock_sources topic
  | some results =>
    let sources := searchLoop num_sources [] results
    if sources.isEmpty then get_mock_sources topic else sources

/-- One extracted item, `{'content': ..., 'source': ...}` (lines 53-56). -/
structure ContentItem where
  content : Chars
  source : Chars
deriving DecidableEq, Repr

/-- The five-field research record (`self.research_data`, lines 13-19). -/
structure ResearchData where
  key_points : List Chars
  recent_developments : List Chars
  challenges : List Chars
  future_outlook : List Chars
  sources : List Chars
deriving DecidableEq, Repr

/-- The fresh record built in `ResearchAgent.__init__`. -/
def emptyResearchData : ResearchData := ⟨[], [], [], [], []⟩

/-- Keyword lists of `_keyword_analysis` (lines 255-257). -/
def key_point_keywords : List Chars :=
  (["breakthrough", "advance", "discovery", "innovation", "developed",
    "created", "achieved", "successful"]).map String.toList

def challenge_keywords : List Chars :=
  (["challenge", "limitation", "problem", "issue", "difficult", "hard",
    "bottleneck", "constraint"]).map String.toList

def future_keywords : List Chars :=
  (["future", "outlook", "prediction", "trend", "will", "expected",
    "potential", "prospect"]).map String.toList

/-- The body of the sentence loop of `_keyword_analysis`
(lines 259-271): keep sentences of length strictly between 30 and 300
and append the 250-char truncation to every matching category. -/
def keywordScanStep (rd : ResearchData) (sentence : Chars) : ResearchData :=
  let clean_sentence := pyStrip sentence
  if 30 < clean_sentence.length ∧ clean_sentence.length < 300 then
    let sentence_lower := pyLower clean_sentence
    let rd := if key_point_keywords.any (fun k => pyContains k sentence_lower) then
        { rd with key_points := rd.key_points ++ [clean_sentence.take 250] } else rd
    let rd := if challenge_keywords.any (fun k => pyContains k sentence_lower) then
        { rd with challenges := rd.challenges ++ [clean_sentence.take 250] } else rd
    let rd := if future_keywords.any (fun k => pyContains k sentence_lower) then
        { rd with future_outlook := rd.future_outlook ++ [clean_sentence.take 250] } else rd
    rd
  else rd

/-- Lines 253-271 of `_keyword_analysis`: split the content on periods
and run the sentence loop. -/
def keywordScan (content : Chars) (rd : ResearchData) : ResearchData :=
  (pySplitOn '.' content).foldl keywordScanStep rd

/-- The fixed sentence of line 274. -/
def recentPlaceholder : Chars := "Recent developments in the field".toList

/-- A function is an admissible model of Python's `list(set(xs))`:
duplicate-free output with the same membership (the element order is
unspecified in the source). -/
def IsPySetList (f : List Chars → List Chars) : Prop :=
  ∀ xs : List Chars, (f xs).Nodup ∧ ∀ a, a ∈ f xs ↔ a ∈ xs

/-- `_keyword_analysis` (lines 247-281), with the unspecified-order
`list(set(...))` modelled by the explicit parameter `f`.  In order:
the sentence loop, the `recent_developments` assignment (line 274), the
conditional source append (lines 276-277), and the dedup-and-cap of the
three keyword lists (lines 280-281). -/
def keyword_analysis (f : List Chars → List Chars) (content source_url : Chars)
    (rd : ResearchData) : ResearchData :=
  let rd := keywordScan content rd
  let rd := { rd with recent_developments :=
      if rd.key_points.isEmpty then [recentPlaceholder] else rd.key_points.take 2 }
  let rd := if source_url ∈ rd.sources then rd
            else { rd with sources := rd.sources ++ [source_url] }
  { rd with key_points := (f rd.key_points).take 4,
            challenges := (f rd.challenges).take 4,
            future_outlook := (f rd.future_outlook).take 4 }

/-- One step of the per-item loops of `research_topic` (lines 69-70) and
`_fallback_analysis` (lines 233-234). -/
def keywordStep (f : List Chars → List Chars) (rd : ResearchData)
    (item : ContentItem) : ResearchData :=
  keyword_analysis f item.content item.source rd

/-- `_fallback_analysis` (lines 227-245): run the keyword analysis on a
fresh record, backfill placeholders for any keyword list that stayed
empty, then overwrite `sources` with every item's source URL (line 244,
duplicates retained). -/
def fallback_analysis (f : List Chars → List Chars)
    (content_list : List ContentItem) : ResearchData :=
  let rd := content_list.foldl (keywordStep f) emptyResearchData
  let rd := if rd.key_points.isEmpty then
      { rd with key_points := ["Key findings extracted from research content".toList] } else rd
  let rd := if rd.challenges.isEmpty then
      { rd with challenges := ["Various technical challenges identified".toList] } else rd
  let rd := if rd.future_outlook.isEmpty then
      { rd with future_outlook := ["Promising future developments expected".toList] } else rd
  { rd with sources := content_list.map ContentItem.source }

/-- `_get_mock_research_data` (lines 291-316). -/
def get_mock_research_data (topic : Chars) : ResearchData where
  key_points :=
    ["Recent advances in ".toList ++ topic ++ " show promising results for practical applications".toList,
     "Major tech companies are investing heavily in ".toList ++ topic ++ " research and development".toList,
     "New algorithms and approaches in ".toList ++ topic ++ " are solving previously intractable problems".toList]
  recent_developments :=
    ["Breakthrough in ".toList ++ topic ++ " stability and performance achieved in recent studies".toList,
     "New government and private funding initiatives for ".toList ++ topic ++ " research announced".toList]
  challenges :=
    ["Scalability remains a major challenge for widespread ".toList ++ topic ++ " adoption".toList,
     "Technical limitations and resource requirements in ".toList ++ topic ++ " need further research".toList]
  future_outlook :=
    ["Industry experts predict ".toList ++ topic ++ " will become commercially viable within 5-10 years".toList,
     topic ++ " is expected to revolutionize multiple industries including healthcare, finance, and logistics".toList]
  sources :=
    ["https://en.wikipedia.org/wiki/Demonstration".toList,
     "https://example.com/technical-research".toList,
     "https://example.com/industry-analysis".toList]

/-- The response-cleaning step of `_analyze_with_openai` (lines 118-125):
strip, drop a leading <code-fence>json marker (7 characters) if present,
drop a trailing 3-character fence marker if present, strip again.
Python `s[7:]` is `drop 7`; `s[:-3]` is `take (length - 3)`. -/
def cleanLLMResponse (s : Chars) : Chars :=
  let a := pyStrip s
  let a := if ("```json".toList).isPrefixOf a then a.drop 7 else a
  let a := if ("```".toList).isSuffixOf a then a.take (a.length - 3) else a
  pyStrip a

/-- A response wrapped in a fenced code block with a `json` language tag
(the shape the cleaning step of `_analyze_with_openai` targets). -/
def fencedJson (t : Chars) : Chars := "```json".toList ++ (t ++ "```".toList)

/-- `research_topic` (lines 37-77).  Oracles: `analyze` stands for
`_analyze_with_openai` (which internally catches every failure and falls
back, hence total); `searchOutcome` for the DuckDuckGo call;
`fetchText` for the HTTP fetch + HTML parse + tag removal of
`_extract_content`, yielding the raw `get_text()` text (`none` models a
fetch/parse failure).  The pair returned is (value returned to the
caller, `self.research_data` after the call); the keyword path
both mutates and returns `self.research_data`, while the mock-data
paths return a fresh record and leave the instance state unchanged. -/
def research_topic (f : List Chars → List Chars)
    (analyze : List ContentItem → Chars → ResearchData)
    (client_available : Bool) (searchOutcome : Option (List Chars))
    (fetchText : Chars → Option Chars) (topic : Chars) (num_sources : Nat)
    (self_rd : ResearchData) : ResearchData × ResearchData :=
  let sources := search_web searchOutcome topic num_sources
  if sources.isEmpty then (get_mock_research_data topic, self_rd)
  else
    let all_content := sources.filterMap (fun url =>
      ((fetchText url).bind extract_content_clean).bind (fun content =>
        if content.isEmpty then none else some ⟨content, url⟩))
    if all_content.isEmpty then (get_mock_research_data topic, self_rd)
    else if client_available then
      let rd := analyze all_content topic
      (rd, rd)
    else
      let rd := all_content.foldl (keywordStep f) self_rd
      (rd, rd)

/-- Modelled from the spec: "the host of the URL" used by claim C2.
The code itself never isolates the host; this definition exists only to
state the claim.  The host is what follows the scheme separator up to
the first path, query or fragment delimiter. -/
def afterScheme : Chars → Chars
  | [] => []
  | c :: rest =>
    if ("//".toList).isPrefixOf rest ∧ c = ':' then rest.drop 2
    else afterScheme rest

def urlHost (url : Chars) : Chars :=
  (afterScheme url).takeWhile (fun c => !(c = '/' || c = '?' || c = '#'))

/-- First-seen-order deduplication, the effect of the conditional append
of `_keyword_analysis` (lines 276-277) accumulated over a list. -/
def appendIfAbsent (acc : List Chars) (x : Chars) : List Chars :=
  if x ∈ acc then acc else acc ++ [x]

def firstSeenDedup (xs : List Chars) : List Chars :=
  xs.foldl appendIfAbsent []

/-! ### Helper lemmas -/

theorem isPySetList_dedup : IsPySetList (fun xs => xs.dedup) :=
  fun xs => ⟨List.nodup_dedup xs, fun _ => List.mem_dedup⟩

theorem dropWhile_dropWhile (p : Char → Bool) (l : Chars) :
    (l.dropWhile p).dropWhile p = l.dropWhile p := by
  induction l with
  | nil => rfl
  | cons c rest ih =>
    by_cases h : p c
    · simp [List.dropWhile_cons, h, ih]
    · simp [List.dropWhile_cons, h]

theorem dropWhile_eq_self_of_front {p : Char → Bool} {u v : Chars}
    (hu : u.dropWhile p = u) (hv : v <+: u) : v.dropWhile p = v := by
  cases v with
  | nil => rfl
  | cons c v' =>
    obtain ⟨t, rfl⟩ := hv
    have hc : p c = false := by
      by_contra hc'
      rw [Bool.not_eq_false] at hc'
      rw [List.cons_append, List.dropWhile_cons, if_pos hc'] at hu
      have hlen := (List.dropWhile_suffix (l := v' ++ t) p).length_le
      rw [hu] at hlen
      simp at hlen
    simp [List.dropWhile_cons, hc]

theorem pyStrip_front (s : Chars) : pyStrip s <+: s.dropWhile pyIsSpace := by
  unfold pyStrip
  have h := List.dropWhile_suffix (l := (s.dropWhile pyIsSpace).reverse) pyIsSpace
  have h2 := List.reverse_prefix.mpr h
  rwa [List.reverse_reverse] at h2

theorem dropWhile_pyStrip (s : Chars) : (pyStrip s).dropWhile pyIsSpace = pyStrip s :=
  dropWhile_eq_self_of_front (dropWhile_dropWhile _ s) (pyStrip_front s)

theorem pyStrip_idem (s : Chars) : pyStrip (pyStrip s) = pyStrip s := by
  have h1 := dropWhile_pyStrip s
  unfold pyStrip
  unfold pyStrip at h1
  rw [h1, List.reverse_reverse, dropWhile_dropWhile]

theorem pyStrip_length_le (s : Chars) : (pyStrip s).length ≤ s.length :=
  le_trans (pyStrip_front s).length_le (List.dropWhile_suffix pyIsSpace).length_le

theorem infix_of_prefix_suffix {l₁ l₂ l₃ : Chars} (h1 : l₁ <+: l₂) (h2 : l₂ <:+ l₃) :
    l₁ <:+: l₃ := by
  obtain ⟨t, rfl⟩ := h1
  obtain ⟨s, rfl⟩ := h2
  exact ⟨s, t, by simp⟩

theorem infix_map {f : Char → Char} {l₁ l₂ : Chars} (h : l₁ <:+: l₂) :
    l₁.map f <:+: l₂.map f := by
  obtain ⟨s, t, rfl⟩ := h
  exact ⟨s.map f, t.map f, by simp⟩

theorem afterScheme_suffix (l : Chars) : afterScheme l <:+ l := by
  induction l with
  | nil => exact List.nil_suffix
  | cons c rest ih =>
    rw [afterScheme]
    by_cases h : (("//".toList).isPrefixOf rest ∧ c = ':')
    · rw [if_pos h]
      exact (List.drop_suffix 2 rest).trans (List.suffix_cons _ _)
    · rw [if_neg h]
      exact ih.trans (List.suffix_cons _ _)

/-! ### C2: source filtering matches the whole URL, not the host -/

/-- C2, counterexample: `_is_reliable_source` accepts
`https://totally-random-blog.test/wikipedia.org` although its host is
`totally-random-blog.test` and no allow-listed domain occurs in that
host — the claim "accepted only if the host matches, and a URL with host
totally-random-blog.test is always rejected" is false on the code, which
substring-matches the whole URL. -/
theorem c2_counterexample :
    is_reliable_source ("https://totally-random-blog.test/wikipedia.org".toList) = true
    ∧ urlHost ("https://totally-random-blog.test/wikipedia.org".toList)
        = ("totally-random-blog.test".toList)
    ∧ reliable_domains.all
        (fun d => !(pyContains d (pyLower ("totally-random-blog.test".toList)))) = true := by
  refine ⟨by decide, by decide, by decide⟩

/-- C2, amended: `_is_reliable_source` accepts a URL exactly when some
allow-listed domain is a case-insensitive substring of the whole URL;
consequently every URL whose host is `en.wikipedia.org` is accepted,
but a URL with host `totally-random-blog.test` can still be accepted
when an allow-listed domain occurs elsewhere in the URL. -/
theorem c2_amended (url : Chars) :
    (urlHost url = ("en.wikipedia.org".toList) → is_reliable_source url = true)
    ∧ (is_reliable_source url = true ↔ ∃ d ∈ reliable_domains, d <:+: pyLower url) := by
  constructor
  · intro h
    have hinf : urlHost url <:+: url :=
      infix_of_prefix_suffix ( List.takeWhile_prefix _) (afterScheme_suffix url)
    rw [h] at hinf
    have hlow : pyLower ("en.wikipedia.org".toList) <:+: pyLower url := infix_map hinf
    have h1 : ("wikipedia.org".toList) <:+: pyLower ("en.wikipedia.org".toList) := by decide
    have h2 := h1.trans hlow
    unfold is_reliable_source
    rw [List.any_eq_true]
    exact ⟨_, by decide, decide_eq_true h2⟩
  · unfold is_reliable_source pyContains
    rw [List.any_eq_true]
    exact ⟨fun ⟨d, hd, hp⟩ => ⟨d, hd, of_decide_eq_true hp⟩,
           fun ⟨d, hd, hp⟩ => ⟨d, hd, decide_eq_true hp⟩⟩

theorem c2_amended_witness :
    urlHost ("https://en.wikipedia.org/wiki/Quantum_computing".toList)
      = ("en.wikipedia.org".toList)
    ∧ is_reliable_source ("https://en.wikipedia.org/wiki/Quantum_computing".toList) = true :=
  ⟨by decide, (c2_amended _).1 (by decide)⟩

/-! ### C5: discovery count bound and mock fallback -/

/-- C5, counterexample: with `desired_count = 0` the loop of
`_search_web` appends a reliable result before testing the break
condition, so it returns 1 URL — more than `desired_count`. -/
theorem c5_counterexample :
    ¬ ((search_web (some [("https://en.wikipedia.org/wiki/A".toList)]) ("t".toList) 0).length ≤ 0) := by
  decide

theorem searchLoop_eq (n : Nat) (results : List Chars) :
    ∀ acc : List Chars, acc.length < n →
      searchLoop n acc results = acc ++ (results.filter is_reliable_source).take (n - acc.length) := by
  induction results with
  | nil => intro acc h; simp [searchLoop]
  | cons r rest ih =>
    intro acc h
    by_cases hr : is_reliable_source r
    · by_cases hn : n ≤ acc.length + 1
      · have h1 : n - acc.length = 1 := by omega
        simp [searchLoop, hr, hn, List.filter_cons, h1]
      · have h2 : (acc ++ [r]).length < n := by simp; omega
        have h3 : n - acc.length = (n - (acc ++ [r]).length) + 1 := by simp; omega
        simp only [searchLoop, if_pos hr, if_neg hn, ih _ h2, List.filter_cons, hr,
          h3, List.take_succ_cons]
        simp
    · simp [searchLoop, hr, List.filter_cons, ih acc h]

/-- C5, amended (restricted to `desired_count ≥ 1`, the counterexample
shows it fails at 0): discovery returns the first `desired_count`
allow-listed results in order — at most `desired_count`, without
padding — and when none are accepted, or the provider raises, exactly
the 3 fixed mock URLs, the first built from the topic by substituting
spaces with underscores. -/
theorem c5_amended (n : Nat) (hn : 1 ≤ n) (results : List Chars) (topic : Chars) :
    (search_web (some results) topic n =
      if ((results.filter is_reliable_source).take n).isEmpty then get_mock_sources topic
      else (results.filter is_reliable_source).take n)
    ∧ search_web none topic n = get_mock_sources topic
    ∧ (get_mock_sources topic).length = 3
    ∧ (get_mock_sources topic).head? =
        some ("https://en.wikipedia.org/wiki/".toList ++ pyReplaceSpaceUnderscore topic)
    ∧ (¬ ((results.filter is_reliable_source).take n).isEmpty →
        (search_web (some results) topic n).length ≤ n) := by
  have hloop : searchLoop n [] results = (results.filter is_reliable_source).take n := by
    have h := searchLoop_eq n results [] (by simpa using hn)
    simpa using h
  refine ⟨?_, rfl, rfl, rfl, ?_⟩
  · simp only [search_web]
    rw [hloop]
  · intro hne
    simp only [search_web]
    rw [hloop, if_neg hne, List.length_take]
    exact inf_le_left

theorem c5_amended_witness :
    search_web (some [("https://randomblog.example/post".toList),
                      ("https://arxiv.org/abs/2401.1".toList),
                      ("https://en.wikipedia.org/wiki/A".toList)]) ("t".toList) 1
      = [("https://arxiv.org/abs/2401.1".toList)] := by
  have h := (c5_amended 1 (by decide)
    [("https://randomblog.example/post".toList),
     ("https://arxiv.org/abs/2401.1".toList),
     ("https://en.wikipedia.org/wiki/A".toList)] ("t".toList)).1
  rw [h]
  decide

/-! ### C6: extractor output bound and empty-text signal -/

/-- C6, confirmed: whatever raw text the fetched document yields, the
cleaned extract is at most 2500 characters, and the extractor signals
`None` whenever the normalized text is empty. -/
theorem c6_extractor (text : Chars) :
    (∀ out, extract_content_clean text = some out → out.length ≤ 2500)
    ∧ (normalizeExtractedText text = [] → extract_content_clean text = none) := by
  constructor
  · intro out h
    unfold extract_content_clean at h
    by_cases he : (normalizeExtractedText text).isEmpty
    · simp [he] at h
    · simp only [he, Bool.false_eq_true, if_false, Option.some.injEq] at h
      calc out.length = (pyStrip ((normalizeExtractedText text).take 2500)).length := by rw [h]
        _ ≤ ((normalizeExtractedText text).take 2500).length := pyStrip_length_le _
        _ ≤ 2500 := by rw [List.length_take]; exact inf_le_left
  · intro h
    unfold extract_content_clean
    simp [h]

theorem c6_extractor_witness :
    (("hello there".toList).length ≤ 2500)
    ∧ extract_content_clean [] = none :=
  ⟨(c6_extractor ("  hello   there ".toList)).1 _ (by decide),
   (c6_extractor []).2 (by decide)⟩

/-! ### Structure of the keyword scan -/

theorem keywordScanStep_eq (rd : ResearchData) (s : Chars) :
    keywordScanStep rd s =
      if 30 < (pyStrip s).length ∧ (pyStrip s).length < 300 then
        { rd with
          key_points := rd.key_points ++
            (if key_point_keywords.any (fun k => pyContains k (pyLower (pyStrip s)))
             then [(pyStrip s).take 250] else []),
          challenges := rd.challenges ++
            (if challenge_keywords.any (fun k => pyContains k (pyLower (pyStrip s)))
             then [(pyStrip s).take 250] else []),
          future_outlook := rd.future_outlook ++
            (if future_keywords.any (fun k => pyContains k (pyLower (pyStrip s)))
             then [(pyStrip s).take 250] else []) }
      else rd := by
  simp only [keywordScanStep]
  split
  · by_cases h1 : key_point_keywords.any (fun k => pyContains k (pyLower (pyStrip s))) <;>
    by_cases h2 : challenge_keywords.any (fun k => pyContains k (pyLower (pyStrip s))) <;>
    by_cases h3 : future_keywords.any (fun k => pyContains k (pyLower (pyStrip s))) <;>
    simp [h1, h2, h3]
  · rfl

theorem keywordScanStep_sources (rd : ResearchData) (s : Chars) :
    (keywordScanStep rd s).sources = rd.sources := by
  rw [keywordScanStep_eq]; split <;> rfl

theorem keywordScanStep_kp_append (rd : ResearchData) (s : Chars) :
    ∃ t, (keywordScanStep rd s).key_points = rd.key_points ++ t := by
  rw [keywordScanStep_eq]; split
  · exact ⟨_, rfl⟩
  · exact ⟨[], (List.append_nil _).symm⟩

theorem keywordScanStep_ch_append (rd : ResearchData) (s : Chars) :
    ∃ t, (keywordScanStep rd s).challenges = rd.challenges ++ t := by
  rw [keywordScanStep_eq]; split
  · exact ⟨_, rfl⟩
  · exact ⟨[], (List.append_nil _).symm⟩

theorem keywordScanStep_fo_append (rd : ResearchData) (s : Chars) :
    ∃ t, (keywordScanStep rd s).future_outlook = rd.future_outlook ++ t := by
  rw [keywordScanStep_eq]; split
  · exact ⟨_, rfl⟩
  · exact ⟨[], (List.append_nil _).symm⟩

theorem foldl_scanStep_sources (l : List Chars) :
    ∀ rd : ResearchData, (l.foldl keywordScanStep rd).sources = rd.sources := by
  induction l with
  | nil => intro rd; rfl
  | cons s rest ih => intro rd; rw [List.foldl_cons, ih, keywordScanStep_sources]

theorem keywordScan_sources (c : Chars) (rd : ResearchData) :
    (keywordScan c rd).sources = rd.sources :=
  foldl_scanStep_sources _ rd

theorem mem_foldl_scanStep_kp {x : Chars} (l : List Chars) :
    ∀ rd : ResearchData, x ∈ rd.key_points → x ∈ (l.foldl keywordScanStep rd).key_points := by
  induction l with
  | nil => intro rd h; exact h
  | cons s rest ih =>
    intro rd h
    rw [List.foldl_cons]
    refine ih _ ?_
    obtain ⟨t, ht⟩ := keywordScanStep_kp_append rd s
    rw [ht]
    exact List.mem_append_left _ h

theorem mem_foldl_scanStep_ch {x : Chars} (l : List Chars) :
    ∀ rd : ResearchData, x ∈ rd.challenges → x ∈ (l.foldl keywordScanStep rd).challenges := by
  induction l with
  | nil => intro rd h; exact h
  | cons s rest ih =>
    intro rd h
    rw [List.foldl_cons]
    refine ih _ ?_
    obtain ⟨t, ht⟩ := keywordScanStep_ch_append rd s
    rw [ht]
    exact List.mem_append_left _ h

theorem mem_foldl_scanStep_fo {x : Chars} (l : List Chars) :
    ∀ rd : ResearchData, x ∈ rd.future_outlook → x ∈ (l.foldl keywordScanStep rd).future_outlook := by
  induction l with
  | nil => intro rd h; exact h
  | cons s rest ih =>
    intro rd h
    rw [List.foldl_cons]
    refine ih _ ?_
    obtain ⟨t, ht⟩ := keywordScanStep_fo_append rd s
    rw [ht]
    exact List.mem_append_left _ h

/-! ### C3: recent_developments is derived from pre-dedup key_points -/

/-- C3, counterexample: a content whose two sentences are the same
key-point sentence.  `recent_developments` is assigned the first two
entries of the key-point list *before* the dedup-and-cap of lines
280-281, so the returned record has `recent_developments` with two
copies while the returned `key_points` keeps one — the claim, which
relates `recent_developments` to the *returned* `key_points`, is false.
(`List.dedup` is an admissible order for `list(set(...))`; on a
one-element set every admissible order gives the same list.) -/
theorem c3_counterexample :
    (keyword_analysis (fun xs => xs.dedup)
      ("A breakthrough was achieved here by us. A breakthrough was achieved here by us.".toList)
      ("https://en.wikipedia.org/wiki/A".toList) emptyResearchData).key_points ≠ []
    ∧ (keyword_analysis (fun xs => xs.dedup)
      ("A breakthrough was achieved here by us. A breakthrough was achieved here by us.".toList)
      ("https://en.wikipedia.org/wiki/A".toList) emptyResearchData).recent_developments ≠
      ((keyword_analysis (fun xs => xs.dedup)
      ("A breakthrough was achieved here by us. A breakthrough was achieved here by us.".toList)
      ("https://en.wikipedia.org/wiki/A".toList) emptyResearchData).key_points).take 2 := by
  refine ⟨by decide, by decide⟩

/-- C3, amended: after a `_keyword_analysis` call, `recent_developments`
equals the first two entries of the key-point list as accumulated by the
sentence scan, before deduplication and capping (or the fixed
placeholder when that list is empty); each of its entries is either the
placeholder or an entry of that pre-dedup list.  It is never
independently populated. -/
theorem c3_amended (f : List Chars → List Chars) (content url : Chars) (rd : ResearchData) :
    ((keyword_analysis f content url rd).recent_developments =
      if (keywordScan content rd).key_points.isEmpty then [recentPlaceholder]
      else (keywordScan content rd).key_points.take 2)
    ∧ (∀ x ∈ (keyword_analysis f content url rd).recent_developments,
        x = recentPlaceholder ∨ x ∈ (keywordScan content rd).key_points) := by
  have hrec : (keyword_analysis f content url rd).recent_developments =
      if (keywordScan content rd).key_points.isEmpty then [recentPlaceholder]
      else (keywordScan content rd).key_points.take 2 := by
    simp only [keyword_analysis]
    split <;> rfl
  refine ⟨hrec, ?_⟩
  intro x hx
  rw [hrec] at hx
  by_cases he : (keywordScan content rd).key_points.isEmpty
  · rw [if_pos he] at hx
    left
    simpa using hx
  · rw [if_neg he] at hx
    right
    exact List.take_subset _ _ hx

theorem c3_amended_witness :
    ((keyword_analysis (fun xs => xs.dedup) ("x".toList) ("u".toList)
        emptyResearchData).recent_developments = [recentPlaceholder])
    ∧ (recentPlaceholder = recentPlaceholder
        ∨ recentPlaceholder ∈ (keywordScan ("x".toList) emptyResearchData).key_points) :=
  ⟨((c3_amended (fun xs => xs.dedup) ("x".toList) ("u".toList) emptyResearchData).1).trans
      (by decide),
   (c3_amended (fun xs => xs.dedup) ("x".toList) ("u".toList) emptyResearchData).2
      recentPlaceholder (by decide)⟩

/-! ### C7: a kept sentence feeds every matching category -/

theorem foldl_scanStep_kp_adds {s : Chars}
    (h30 : 30 < (pyStrip s).length) (h300 : (pyStrip s).length < 300)
    (hcond : key_point_keywords.any (fun k => pyContains k (pyLower (pyStrip s))) = true)
    (l : List Chars) :
    ∀ rd : ResearchData, s ∈ l →
      (pyStrip s).take 250 ∈ (l.foldl keywordScanStep rd).key_points := by
  induction l with
  | nil => intro rd h; cases h
  | cons a rest ih =>
    intro rd h
    rw [List.foldl_cons]
    rcases List.mem_cons.mp h with h | h
    · subst h
      refine mem_foldl_scanStep_kp rest _ ?_
      rw [keywordScanStep_eq, if_pos ⟨h30, h300⟩, hcond]
      simp
    · exact ih _ h

theorem foldl_scanStep_ch_adds {s : Chars}
    (h30 : 30 < (pyStrip s).length) (h300 : (pyStrip s).length < 300)
    (hcond : challenge_keywords.any (fun k => pyContains k (pyLower (pyStrip s))) = true)
    (l : List Chars) :
    ∀ rd : ResearchData, s ∈ l →
      (pyStrip s).take 250 ∈ (l.foldl keywordScanStep rd).challenges := by
  induction l with
  | nil => intro rd h; cases h
  | cons a rest ih =>
    intro rd h
    rw [List.foldl_cons]
    rcases List.mem_cons.mp h with h | h
    · subst h
      refine mem_foldl_scanStep_ch rest _ ?_
      rw [keywordScanStep_eq, if_pos ⟨h30, h300⟩, hcond]
      split <;> simp
    · exact ih _ h

theorem foldl_scanStep_fo_adds {s : Chars}
    (h30 : 30 < (pyStrip s).length) (h300 : (pyStrip s).length < 300)
    (hcond : future_keywords.any (fun k => pyContains k (pyLower (pyStrip s))) = true)
    (l : List Chars) :
    ∀ rd : ResearchData, s ∈ l →
      (pyStrip s).take 250 ∈ (l.foldl keywordScanStep rd).future_outlook := by
  induction l with
  | nil => intro rd h; cases h
  | cons a rest ih =>
    intro rd h
    rw [List.foldl_cons]
    rcases List.mem_cons.mp h with h | h
    · subst h
      refine mem_foldl_scanStep_fo rest _ ?_
      rw [keywordScanStep_eq, if_pos ⟨h30, h300⟩, hcond]
      split <;> split <;> simp
    · exact ih _ h

/-- C7, confirmed: every sentence of the split content whose stripped
form has length strictly between 30 and 300 is appended (truncated to
250 characters) by the sentence scan to every category whose keyword
set matches it case-insensitively — in particular to both `key_points`
and `challenges` when both match. -/
theorem c7_multi_category (content : Chars) (rd : ResearchData) (s : Chars)
    (hs : s ∈ pySplitOn '.' content)
    (h30 : 30 < (pyStrip s).length) (h300 : (pyStrip s).length < 300) :
    ((key_point_keywords.any (fun k => pyContains k (pyLower (pyStrip s))) = true →
        (pyStrip s).take 250 ∈ (keywordScan content rd).key_points)
    ∧ (challenge_keywords.any (fun k => pyContains k (pyLower (pyStrip s))) = true →
        (pyStrip s).take 250 ∈ (keywordScan content rd).challenges)
    ∧ (future_keywords.any (fun k => pyContains k (pyLower (pyStrip s))) = true →
        (pyStrip s).take 250 ∈ (keywordScan content rd).future_outlook)) :=
  ⟨fun hc => foldl_scanStep_kp_adds h30 h300 hc _ rd hs,
   fun hc => foldl_scanStep_ch_adds h30 h300 hc _ rd hs,
   fun hc => foldl_scanStep_fo_adds h30 h300 hc _ rd hs⟩

theorem c7_multi_category_witness :
    (("This breakthrough in X was a challenge".toList).take 250 ∈
      (keywordScan ("This breakthrough in X was a challenge".toList)
        emptyResearchData).key_points)
    ∧ (("This breakthrough in X was a challenge".toList).take 250 ∈
      (keywordScan ("This breakthrough in X was a challenge".toList)
        emptyResearchData).challenges) := by
  have h := c7_multi_category ("This breakthrough in X was a challenge".toList)
    emptyResearchData ("This breakthrough in X was a challenge".toList)
    (by decide) (by decide) (by decide)
  exact ⟨by simpa using h.1 (by decide), by simpa using h.2.1 (by decide)⟩

/-! ### C4: source deduplication per synthesis path -/

theorem keyword_analysis_sources (f : List Chars → List Chars) (c u : Chars)
    (rd : ResearchData) :
    (keyword_analysis f c u rd).sources = appendIfAbsent rd.sources u := by
  simp only [keyword_analysis, appendIfAbsent]
  rw [keywordScan_sources]
  split <;> rfl

theorem foldl_keywordStep_sources (f : List Chars → List Chars) (items : List ContentItem) :
    ∀ rd : ResearchData,
      (items.foldl (keywordStep f) rd).sources =
        (items.map ContentItem.source).foldl appendIfAbsent rd.sources := by
  induction items with
  | nil => intro rd; rfl
  | cons it rest ih =>
    intro rd
    rw [List.map_cons, List.foldl_cons, List.foldl_cons, ih]
    congr 1
    exact keyword_analysis_sources f it.content it.source rd

theorem foldl_appendIfAbsent_nodup (xs : List Chars) :
    ∀ acc : List Chars, acc.Nodup → (xs.foldl appendIfAbsent acc).Nodup := by
  induction xs with
  | nil => intro acc h; exact h
  | cons x rest ih =>
    intro acc h
    rw [List.foldl_cons]
    refine ih _ ?_
    unfold appendIfAbsent
    by_cases hx : x ∈ acc
    · rwa [if_pos hx]
    · rw [if_neg hx]
      simp [List.nodup_append, h, hx]

theorem mem_foldl_appendIfAbsent (u : Chars) (xs : List Chars) :
    ∀ acc : List Chars, u ∈ xs.foldl appendIfAbsent acc ↔ u ∈ acc ∨ u ∈ xs := by
  induction xs with
  | nil => intro acc; simp
  | cons x rest ih =>
    intro acc
    rw [List.foldl_cons, ih]
    unfold appendIfAbsent
    by_cases hx : x ∈ acc
    · rw [if_pos hx]
      constructor
      · rintro (h | h)
        · exact Or.inl h
        · exact Or.inr (List.mem_cons_of_mem _ h)
      · rintro (h | h)
        · exact Or.inl h
        · rcases List.mem_cons.mp h with rfl | h
          · exact Or.inl hx
          · exact Or.inr h
    · rw [if_neg hx]
      simp [List.mem_append, List.mem_cons]
      tauto

/-- C4, counterexample: `_fallback_analysis` overwrites `sources` with
the verbatim list of item source URLs (line 244), so a duplicated item
URL appears twice in the returned record — the claim that every
synthesis path deduplicates `sources` is false. -/
theorem c4_counterexample :
    ¬ ((fallback_analysis (fun xs => xs.dedup)
        [⟨("x".toList), ("https://en.wikipedia.org/wiki/A".toList)⟩,
         ⟨("x".toList), ("https://en.wikipedia.org/wiki/A".toList)⟩]).sources.count
        ("https://en.wikipedia.org/wiki/A".toList) = 1) := by
  decide

/-- C4, amended: in the keyword-analysis path (the per-item loop over
`_keyword_analysis` starting from the fresh record) `sources` is exactly
the first-seen-order deduplication of the item source URLs — no
duplicates, same membership; in `_fallback_analysis`, however, `sources`
is the verbatim item URL list, duplicates retained. -/
theorem c4_amended (f : List Chars → List Chars) (items : List ContentItem) :
    ((items.foldl (keywordStep f) emptyResearchData).sources =
      firstSeenDedup (items.map ContentItem.source))
    ∧ ((items.foldl (keywordStep f) emptyResearchData).sources).Nodup
    ∧ (∀ u, u ∈ (items.foldl (keywordStep f) emptyResearchData).sources ↔
        u ∈ items.map ContentItem.source)
    ∧ (fallback_analysis f items).sources = items.map ContentItem.source := by
  have h1 : (items.foldl (keywordStep f) emptyResearchData).sources =
      firstSeenDedup (items.map ContentItem.source) :=
    foldl_keywordStep_sources f items emptyResearchData
  refine ⟨h1, ?_, ?_, rfl⟩
  · rw [h1]
    exact foldl_appendIfAbsent_nodup _ [] List.nodup_nil
  · intro u
    rw [h1]
    unfold firstSeenDedup
    rw [mem_foldl_appendIfAbsent]
    simp

/-! ### C1: shape of the record returned by research_topic -/

/-- Every entry has at most 250 characters (the truncation bound of
`_keyword_analysis`). -/
def allLe250 (l : List Chars) : Prop := ∀ x ∈ l, x.length ≤ 250

theorem allLe250_append {l t : List Chars} (h : allLe250 l) (ht : allLe250 t) :
    allLe250 (l ++ t) :=
  fun x hx => (List.mem_append.mp hx).elim (h x) (ht x)

theorem allLe250_if_take (s : Chars) {c : Prop} [Decidable c] :
    allLe250 (if c then [s.take 250] else []) := by
  split
  · intro x hx
    rw [List.mem_singleton.mp hx, List.length_take]
    exact inf_le_left
  · intro x hx
    cases hx

theorem keywordScanStep_le250 (rd : ResearchData) (s : Chars)
    (hkp : allLe250 rd.key_points) (hch : allLe250 rd.challenges)
    (hfo : allLe250 rd.future_outlook) :
    allLe250 (keywordScanStep rd s).key_points
    ∧ allLe250 (keywordScanStep rd s).challenges
    ∧ allLe250 (keywordScanStep rd s).future_outlook := by
  rw [keywordScanStep_eq]
  split
  · exact ⟨allLe250_append hkp (allLe250_if_take _),
           allLe250_append hch (allLe250_if_take _),
           allLe250_append hfo (allLe250_if_take _)⟩
  · exact ⟨hkp, hch, hfo⟩

theorem foldl_scanStep_le250 (l : List Chars) :
    ∀ rd : ResearchData, allLe250 rd.key_points → allLe250 rd.challenges →
      allLe250 rd.future_outlook →
      allLe250 ((l.foldl keywordScanStep rd).key_points)
      ∧ allLe250 ((l.foldl keywordScanStep rd).challenges)
      ∧ allLe250 ((l.foldl keywordScanStep rd).future_outlook) := by
  induction l with
  | nil => intro rd h1 h2 h3; exact ⟨h1, h2, h3⟩
  | cons s rest ih =>
    intro rd h1 h2 h3
    rw [List.foldl_cons]
    obtain ⟨g1, g2, g3⟩ := keywordScanStep_le250 rd s h1 h2 h3
    exact ih _ g1 g2 g3

theorem keyword_analysis_kp (f : List Chars → List Chars) (c u : Chars) (rd : ResearchData) :
    (keyword_analysis f c u rd).key_points =
      (f (keywordScan c rd).key_points).take 4 := by
  simp only [keyword_analysis]
  split <;> rfl

theorem keyword_analysis_ch (f : List Chars → List Chars) (c u : Chars) (rd : ResearchData) :
    (keyword_analysis f c u rd).challenges =
      (f (keywordScan c rd).challenges).take 4 := by
  simp only [keyword_analysis]
  split <;> rfl

theorem keyword_analysis_fo (f : List Chars → List Chars) (c u : Chars) (rd : ResearchData) :
    (keyword_analysis f c u rd).future_outlook =
      (f (keywordScan c rd).future_outlook).take 4 := by
  simp only [keyword_analysis]
  split <;> rfl

theorem keyword_analysis_le250 {f : List Chars → List Chars} (hf : IsPySetList f)
    (c u : Chars) (rd : ResearchData)
    (hkp : allLe250 rd.key_points) (hch : allLe250 rd.challenges)
    (hfo : allLe250 rd.future_outlook) :
    allLe250 (keyword_analysis f c u rd).key_points
    ∧ allLe250 (keyword_analysis f c u rd).recent_developments
    ∧ allLe250 (keyword_analysis f c u rd).challenges
    ∧ allLe250 (keyword_analysis f c u rd).future_outlook := by
  obtain ⟨g1, g2, g3⟩ :=
    foldl_scanStep_le250 (pySplitOn '.' c) rd hkp hch hfo
  have hscan : ∀ fld : List Chars, allLe250 fld → allLe250 ((f fld).take 4) := by
    intro fld hfld x hx
    exact hfld x (((hf fld).2 x).mp (List.take_subset _ _ hx))
  refine ⟨?_, ?_, ?_, ?_⟩
  · rw [keyword_analysis_kp]
    exact hscan _ g1
  · rw [(c3_amended f c u rd).1]
    split
    · intro x hx
      rw [List.mem_singleton.mp hx]
      decide
    · intro x hx
      exact g1 x (List.take_subset _ _ hx)
  · rw [keyword_analysis_ch]
    exact hscan _ g2
  · rw [keyword_analysis_fo]
    exact hscan _ g3

theorem keyword_analysis_recent_ne (f : List Chars → List Chars) (c u : Chars)
    (rd : ResearchData) :
    (keyword_analysis f c u rd).recent_developments ≠ [] := by
  rw [(c3_amended f c u rd).1]
  split
  · simp
  · rename_i he
    rw [Bool.not_eq_true, List.isEmpty_eq_false_iff_exists_mem] at he
    obtain ⟨a, ha⟩ := he
    cases hkp : (keywordScan c rd).key_points with
    | nil => rw [hkp] at ha; cases ha
    | cons b l => simp

theorem keyword_analysis_sources_ne (f : List Chars → List Chars) (c u : Chars)
    (rd : ResearchData) :
    (keyword_analysis f c u rd).sources ≠ [] := by
  rw [keyword_analysis_sources]
  unfold appendIfAbsent
  split
  · exact List.ne_nil_of_mem (by assumption)
  · simp

/-- The shape guaranteed on the keyword-analysis path:
`recent_developments` and `sources` non-empty, all four text-list fields
bounded by 250 characters per entry (`key_points`, `challenges` and
`future_outlook` may still be empty). -/
def wellFormedKeywordRecord (r : ResearchData) : Prop :=
  r.recent_developments ≠ [] ∧ r.sources ≠ [] ∧ allLe250 r.key_points ∧
  allLe250 r.recent_developments ∧ allLe250 r.challenges ∧ allLe250 r.future_outlook

theorem foldl_keywordStep_wf {f : List Chars → List Chars} (hf : IsPySetList f)
    (items : List ContentItem) :
    ∀ rd : ResearchData, items ≠ [] → allLe250 rd.key_points →
      allLe250 rd.challenges → allLe250 rd.future_outlook →
      wellFormedKeywordRecord (items.foldl (keywordStep f) rd) := by
  induction items with
  | nil => intro rd h; exact absurd rfl h
  | cons it rest ih =>
    intro rd _ h1 h2 h3
    rw [List.foldl_cons]
    obtain ⟨g1, g2, g3, g4⟩ := keyword_analysis_le250 hf it.content it.source rd h1 h2 h3
    cases hrest : rest with
    | nil =>
      refine ⟨keyword_analysis_recent_ne f it.content it.source rd,
              keyword_analysis_sources_ne f it.content it.source rd, g1, g2, g3, g4⟩
    | cons b l =>
      rw [← hrest]
      exact ih _ (by rw [hrest]; exact List.cons_ne_nil b l) g1 g3 g4

/-- C1, counterexample: without an LLM credential, `research_topic`
feeds `_keyword_analysis` directly (lines 67-70) and that path has no
placeholder backfill, so content whose sentences match no keyword (here
every fetched page yields the text "hello there") produces a record with
an *empty* `key_points` list — the claim that all five fields are always
non-empty is false. -/
theorem c1_counterexample :
    (research_topic (fun xs => xs.dedup) (fun _ _ => emptyResearchData) false (some [])
      (fun _ => some ("hello there".toList)) ("ai".toList) 3 emptyResearchData).1.key_points
      = [] := by
  decide

/-- C1, amended: with the LLM unavailable, `research_topic` on a fresh
instance returns either the fixed mock record (when discovery or every
extraction fails) or a keyword-analysis record whose
`recent_developments` and `sources` are non-empty and whose four
text-list fields contain only entries of at most 250 characters —
`key_points`, `challenges` and `future_outlook` may be empty. -/
theorem c1_amended (f : List Chars → List Chars) (hf : IsPySetList f)
    (analyze : List ContentItem → Chars → ResearchData)
    (so : Option (List Chars)) (fetch : Chars → Option Chars) (topic : Chars) :
    (research_topic f analyze false so fetch topic 3 emptyResearchData).1
      = get_mock_research_data topic
    ∨ wellFormedKeywordRecord
        ((research_topic f analyze false so fetch topic 3 emptyResearchData).1) := by
  simp only [research_topic]
  split
  · left; rfl
  · split
    · left; rfl
    · rename_i hne
      right
      rw [Bool.not_eq_true, List.isEmpty_eq_false_iff_exists_mem] at hne
      obtain ⟨a, ha⟩ := hne
      simp only [Bool.false_eq_true, if_false]
      exact foldl_keywordStep_wf hf _ emptyResearchData
        (List.ne_nil_of_mem ha) (fun x hx => absurd hx (List.not_mem_nil x))
        (fun x hx => absurd hx (List.not_mem_nil x))
        (fun x hx => absurd hx (List.not_mem_nil x))

theorem c1_amended_witness :
    IsPySetList (fun xs => xs.dedup)
    ∧ ((research_topic (fun xs => xs.dedup) (fun _ _ => emptyResearchData) false (some [])
          (fun _ => none) ("ai".toList) 3 emptyResearchData).1
        = get_mock_research_data ("ai".toList)
      ∨ wellFormedKeywordRecord
          ((research_topic (fun xs => xs.dedup) (fun _ _ => emptyResearchData) false (some [])
            (fun _ => none) ("ai".toList) 3 emptyResearchData).1)) :=
  ⟨isPySetList_dedup,
   c1_amended (fun xs => xs.dedup) isPySetList_dedup (fun _ _ => emptyResearchData)
     (some []) (fun _ => none) ("ai".toList)⟩

/-! ### C8: code-fence stripping is transparent to parsing -/

theorem pyStrip_fencedJson (t : Chars) : pyStrip (fencedJson t) = fencedJson t := by
  have h1 : (fencedJson t).dropWhile pyIsSpace = fencedJson t := by
    rw [show fencedJson t = '`' :: ("``json".toList ++ (t ++ "```".toList)) from rfl]
    rw [List.dropWhile_cons, if_neg (by decide)]
  have h2 : (fencedJson t).reverse
      = '`' :: ("``".toList ++ (t.reverse ++ ("```json".toList).reverse)) := by
    rw [show fencedJson t = "```json".toList ++ (t ++ "```".toList) from rfl]
    rw [List.reverse_append, List.reverse_append, List.append_assoc]
    rfl
  have h3 : ((fencedJson t).reverse).dropWhile pyIsSpace = (fencedJson t).reverse := by
    rw [h2, List.dropWhile_cons, if_neg (by decide)]
  show (((fencedJson t).dropWhile pyIsSpace).reverse.dropWhile pyIsSpace).reverse = fencedJson t
  rw [h1, h3, List.reverse_reverse]

theorem cleanLLMResponse_fenced (t : Chars) :
    cleanLLMResponse (fencedJson t) = pyStrip t := by
  simp only [cleanLLMResponse]
  rw [pyStrip_fencedJson]
  rw [show fencedJson t = "```json".toList ++ (t ++ "```".toList) from rfl]
  rw [if_pos ( List.isPrefixOf_iff_prefix.mpr (List.prefix_append _ _))]
  rw [show (7 : Nat) = (("```json".toList : Chars)).length from rfl, List.drop_left]
  rw [if_pos (List.isSuffixOf_iff_suffix.mpr (List.suffix_append _ _))]
  have hlen : (t ++ ("```".toList : Chars)).length - 3 = t.length := by
    rw [List.length_append]
    simp
  rw [hlen, List.take_left]

/-- C8, confirmed: for any parsing function that is insensitive to
surrounding whitespace (as `json.loads` is), the cleaning step of
`_analyze_with_openai` applied to a response wrapped in a fenced code
block with a `json` language tag parses to the same value as the
unwrapped text. -/
theorem c8_fence_transparent {α : Type} (t : Chars) (parse : Chars → α)
    (hp : ∀ s, parse (pyStrip s) = parse s) :
    parse (cleanLLMResponse (fencedJson t)) = parse t := by
  rw [cleanLLMResponse_fenced, hp]

theorem c8_fence_transparent_witness :
    pyStrip (cleanLLMResponse (fencedJson ("42".toList))) = pyStrip ("42".toList) :=
  c8_fence_transparent ("42".toList) (fun s => pyStrip s) pyStrip_idem

/-! ### C9: fully degraded run returns the fixed mock record -/

/-- C9, confirmed (the model itself is total, so no path can raise; the
substantive half is the degraded case): with the LLM unavailable and
every extraction failing, `research_topic "quantum computing"` returns
exactly `_get_mock_research_data`, whose `sources` list has exactly the
3 fixed mock entries — for every search outcome and every starting
instance state. -/
theorem c9_degraded (f : List Chars → List Chars)
    (analyze : List ContentItem → Chars → ResearchData)
    (so : Option (List Chars)) (st : ResearchData) :
    ((research_topic f analyze false so (fun _ => none)
        ("quantum computing".toList) 3 st).1
      = get_mock_research_data ("quantum computing".toList))
    ∧ (get_mock_research_data ("quantum computing".toList)).sources.length = 3
    ∧ (get_mock_research_data ("quantum computing".toList)).sources
        = ["https://en.wikipedia.org/wiki/Demonstration".toList,
           "https://example.com/technical-research".toList,
           "https://example.com/industry-analysis".toList] := by
  refine ⟨?_, rfl, rfl⟩
  simp only [research_topic]
  split
  · rfl
  · have hmap : ∀ l : List Chars,
        (l.filterMap (fun url =>
          (((fun _ : Chars => (none : Option Chars)) url).bind extract_content_clean).bind
            (fun content =>
              if content.isEmpty then none
              else some (⟨content, url⟩ : ContentItem)))) = [] := by
      intro l
      induction l with
      | nil => rfl
      | cons a rest ih => simp [ih]
    rw [hmap]
    rfl

/-! ### C10: instance state leaks across research_topic calls -/

/-- Extraction oracle for the cross-call scenario: only the two
encyclopedia mock URLs fetch successfully, each yielding one keyword
sentence. -/
def crossCallFetch : Chars → Option Chars := fun url =>
  if url = ("https://en.wikipedia.org/wiki/alpha_topic".toList) then
    some ("A breakthrough was achieved in alpha systems today.".toList)
  else if url = ("https://en.wikipedia.org/wiki/beta_topic".toList) then
    some ("A major challenge remains for beta systems in practice.".toList)
  else none

/-- C10, confirmed: on an instance without an LLM credential, the
keyword path writes into the instance-level `research_data` which is
never reset, so a second `research_topic` call (threading the state the
first call left) returns a record still carrying the first call's source
URL and key point, while the same second call from a fresh state does
not — successive calls are not independent. -/
theorem c10_cross_call_state :
    (("https://en.wikipedia.org/wiki/alpha_topic".toList) ∈
      (research_topic (fun xs => xs.dedup) (fun _ _ => emptyResearchData) false (some [])
        crossCallFetch ("beta topic".toList) 3
        (research_topic (fun xs => xs.dedup) (fun _ _ => emptyResearchData) false (some [])
          crossCallFetch ("alpha topic".toList) 3 emptyResearchData).2).1.sources)
    ∧ (("A breakthrough was achieved in alpha systems today".toList) ∈
      (research_topic (fun xs => xs.dedup) (fun _ _ => emptyResearchData) false (some [])
        crossCallFetch ("beta topic".toList) 3
        (research_topic (fun xs => xs.dedup) (fun _ _ => emptyResearchData) false (some [])
          crossCallFetch ("alpha topic".toList) 3 emptyResearchData).2).1.key_points)
    ∧ (("https://en.wikipedia.org/wiki/alpha_topic".toList) ∉
      (research_topic (fun xs => xs.dedup) (fun _ _ => emptyResearchData) false (some [])
        crossCallFetch ("beta topic".toList) 3 emptyResearchData).1.sources)
    ∧ ((research_topic (fun xs => xs.dedup) (fun _ _ => emptyResearchData) false (some [])
        crossCallFetch ("beta topic".toList) 3
        (research_topic (fun xs => xs.dedup) (fun _ _ => emptyResearchData) false (some [])
          crossCallFetch ("alpha topic".toList) 3 emptyResearchData).2).1
      ≠ (research_topic (fun xs => xs.dedup) (fun _ _ => emptyResearchData) false (some [])
        crossCallFetch ("beta topic".toList) 3 emptyResearchData).1) := by
  refine ⟨by decide, by decide, by decide, by decide⟩
